import Mathlib

/-!
Shallow embedding of the YouTube-timestamps-to-CUE converter
(`src/youtube_to_cue.py`, class `CueGenerator`).

Strings are modelled as `List Char`.  The ASCII members of Python's
whitespace class (`str.strip`, regex class `\s`) and of the decimal-digit
class (regex `\d`, `int`) are used; the claims under study never involve
non-ASCII members of those classes.

The three line-shape regular expressions of `parse_timestamp_line` are
embedded as explicit backtracking matchers whose candidate order mirrors
the Python `re` engine: optional elements prefer presence, greedy
quantifiers prefer longer matches, the lazy group of the suffix shape
prefers shorter matches, and for a fixed earlier choice every later
choice is exhausted before the earlier one is revised.
-/

namespace YT2CUE

/-- ASCII decimal digit (the relevant members of regex class `\d`). -/
def isDigitC (c : Char) : Bool := ('0' ≤ c) && (c ≤ '9')

/-- ASCII whitespace (the relevant members of `str.strip` / regex `\s`). -/
def isSpaceC (c : Char) : Bool :=
  c == ' ' || c == '\t' || c == '\n' || c == '\r' || c == '\x0b' || c == '\x0c'

/-- Python `str.strip()`: remove whitespace from both ends. -/
def trimSpace (l : List Char) : List Char :=
  ((l.dropWhile isSpaceC).reverse.dropWhile isSpaceC).reverse

/-- Python `str.split(sep = colon)`: split on every colon; the result is
always non-empty and an empty input yields one empty group. -/
def splitColon : List Char → List (List Char)
  | [] => [[]]
  | c :: cs =>
    match splitColon cs with
    | [] => [[]]
    | g :: gs => if c = ':' then [] :: g :: gs else (c :: g) :: gs

/-- Helper for `digitsOk`: head of the list is a digit. -/
def headDigit : List Char → Bool
  | [] => false
  | c :: _ => isDigitC c

/-- Helper for `digitsOk`: no two adjacent underscores. -/
def noDoubleUnd : List Char → Bool
  | [] => true
  | [_] => true
  | a :: b :: rest => !(a == '_' && b == '_') && noDoubleUnd (b :: rest)

/-- Body of a Python integer literal as accepted by `int()` after sign and
whitespace removal: a non-empty digit string in which single underscores
may stand between digits. -/
def digitsOk (l : List Char) : Bool :=
  headDigit l && headDigit l.reverse &&
  l.all (fun c => isDigitC c || c == '_') && noDoubleUnd l

/-- Numeric value of a digit string, underscores skipped. -/
def digitsVal (l : List Char) : Nat :=
  l.foldl (fun n c => if c == '_' then n else n * 10 + (c.toNat - ('0').toNat)) 0

/-- Python `int(s)`: strip whitespace, optional sign, digits with optional
single underscores between them; `none` models the `ValueError`. -/
def pyInt (l : List Char) : Option Int :=
  let t := trimSpace l
  if t.head? = some '+' then
    if digitsOk t.tail then some (Int.ofNat (digitsVal t.tail)) else none
  else if t.head? = some '-' then
    if digitsOk t.tail then some (-(Int.ofNat (digitsVal t.tail))) else none
  else if digitsOk t then some (Int.ofNat (digitsVal t)) else none

/-- Apostrophe character, used by Python in `ValueError` messages of
`int()` to quote the offending literal. -/
def sq : Char := Char.ofNat 39

/-- Message of the `ValueError` raised by `int()` on a bad literal.  The
offending group is quoted; escaping of exotic characters inside the
quotes is not modelled. -/
def intErrMsg (p : List Char) : List Char :=
  ("invalid literal for int() with base 10: ").toList ++ sq :: (p ++ [sq])

/-- Python `int(s)` with the `ValueError` message carried on failure. -/
def pyIntE (p : List Char) : Except (List Char) Int :=
  match pyInt p with
  | some v => Except.ok v
  | none => Except.error (intErrMsg p)

/-- Decidable equality of `Except` values, for concrete evaluation. -/
instance exceptDecEq {e a : Type} [DecidableEq e] [DecidableEq a] :
    DecidableEq (Except e a)
  | Except.ok u, Except.ok v =>
    if h : u = v then Decidable.isTrue (by rw [h])
    else Decidable.isFalse (by intro hc; injection hc with h2; exact h h2)
  | Except.ok _, Except.error _ => Decidable.isFalse (fun hc => Except.noConfusion hc)
  | Except.error _, Except.ok _ => Decidable.isFalse (fun hc => Except.noConfusion hc)
  | Except.error f, Except.error g =>
    if h : f = g then Decidable.isTrue (by rw [h])
    else Decidable.isFalse (by intro hc; injection hc with h2; exact h h2)

/-- Normalized timecode: the triple returned by `parse_timestamp`. -/
structure Timecode where
  minutes : Int
  seconds : Int
  frames : Int
deriving DecidableEq, Repr

/-- Message of the `ValueError` raised for a group count other than 2 or 3
(source line 57). -/
def invalidMsg (t : List Char) : List Char :=
  ("Invalid timestamp format: ").toList ++ t

/-- `CueGenerator.parse_timestamp` (source lines 32-60): strip the token,
split on colons; 2 groups are minutes:seconds, 3 groups are
hours:minutes:seconds with hours folded into minutes; frames are always 0.
No bounds checking beyond `int()` parsing is performed.  `Except.error`
carries the `ValueError` message. -/
def parse_timestamp (timestamp : List Char) : Except (List Char) Timecode :=
  let t := trimSpace timestamp
  match splitColon t with
  | [p0, p1] => do
      let m ← pyIntE p0
      let s ← pyIntE p1
      Except.ok ⟨m, s, 0⟩
  | [p0, p1, p2] => do
      let h ← pyIntE p0
      let m ← pyIntE p1
      let s ← pyIntE p2
      Except.ok ⟨m + h * 60, s, 0⟩
  | _ => Except.error (invalidMsg t)

/-! Regex building blocks for `parse_timestamp_line`. -/

/-- Timestamp token of shape digit, colon, digit, digit
(the 1-digit-minutes, no-seconds branch of the token regex). -/
def ts4 : List Char → Bool
  | [a, x, c, d] => isDigitC a && x == ':' && isDigitC c && isDigitC d
  | _ => false

/-- Timestamp token of shape digit, digit, colon, digit, digit. -/
def ts5 : List Char → Bool
  | [a, b, x, c, d] =>
    isDigitC a && isDigitC b && x == ':' && isDigitC c && isDigitC d
  | _ => false

/-- Timestamp token of shape digit, colon, digit, digit, colon, digit, digit. -/
def ts7 : List Char → Bool
  | [a, x, c, d, y, e, f] =>
    isDigitC a && x == ':' && isDigitC c && isDigitC d &&
    y == ':' && isDigitC e && isDigitC f
  | _ => false

/-- Timestamp token of shape two digits, colon, two digits, colon, two digits. -/
def ts8 : List Char → Bool
  | [a, b, x, c, d, y, e, f] =>
    isDigitC a && isDigitC b && x == ':' && isDigitC c && isDigitC d &&
    y == ':' && isDigitC e && isDigitC f
  | _ => false

/-- A whole string has the shape of the timestamp-token regex
`\d` one-or-two, colon, `\d\d`, optionally colon `\d\d`. -/
def tsShaped (s : List Char) : Bool := ts4 s || ts5 s || ts7 s || ts8 s

/-- Candidate matches of the timestamp-token regex at the head of `l`, as
pairs of token and remainder, in the backtracking preference order of the
Python engine: two-digit minutes before one-digit minutes, optional
seconds group present before absent. -/
def tsCore (l : List Char) : List (List Char × List Char) :=
  (if ts8 (l.take 8) then [(l.take 8, l.drop 8)] else []) ++
  (if ts5 (l.take 5) then [(l.take 5, l.drop 5)] else []) ++
  (if ts7 (l.take 7) then [(l.take 7, l.drop 7)] else []) ++
  (if ts4 (l.take 4) then [(l.take 4, l.drop 4)] else [])

/-- Alternatives for the optional opening bracket `[` or `(` of the
patterns, consumed-first (greedy optional). -/
def brOpens : List Char → List (List Char)
  | c :: rest => if c == '[' || c == '(' then [rest, c :: rest] else [c :: rest]
  | [] => [[]]

/-- Alternatives for the optional closing bracket `]` or `)`. -/
def brCloses : List Char → List (List Char)
  | c :: rest => if c == ']' || c == ')' then [rest, c :: rest] else [c :: rest]
  | [] => [[]]

/-- Length of the maximal whitespace run at the head of the list. -/
def leadSpaces : List Char → Nat
  | [] => 0
  | c :: cs => if isSpaceC c then leadSpaces cs + 1 else 0

/-- Length of the maximal digit run at the head of the list. -/
def leadDigits : List Char → Nat
  | [] => 0
  | c :: cs => if isDigitC c then leadDigits cs + 1 else 0

/-- Splits realizing the greedy one-or-more-whitespace item: the non-empty
whitespace prefixes of `r` paired with their remainders, longest first. -/
def spacePlusSplits (r : List Char) : List (List Char × List Char) :=
  (List.range (leadSpaces r)).map fun i =>
    (r.take (leadSpaces r - i), r.drop (leadSpaces r - i))

/-- The trailing group: one or more arbitrary non-newline characters,
greedy, followed by end of input (or the final newline).  Returns the
captured group. -/
def dotPlusEnd (r : List Char) : Option (List Char) :=
  if r.contains '\n' then
    if r.getLast? = some '\n' ∧ (r.dropLast.contains '\n') = false ∧ r.dropLast ≠ []
    then some r.dropLast else none
  else if r = [] then none else some r

/-- Tail of shapes (a) and (b): whitespace run then the title group up to
the end of the line.  Returns the captured title group. -/
def spTitle (r : List Char) : Option (List Char) :=
  (spacePlusSplits r).findSome? fun p => dotPlusEnd p.2

/-- End-of-pattern anchor: end of input, or a single final newline. -/
def endOk : List Char → Bool
  | [] => true
  | ['\n'] => true
  | _ => false

/-- Shape (a): optional opening bracket, timestamp token, optional closing
bracket, whitespace, title.  Returns the two captured groups in pattern
order: token then title. -/
def pat1 (l : List Char) : Option (List Char × List Char) :=
  (brOpens l).findSome? fun l1 =>
    (tsCore l1).findSome? fun p =>
      (brCloses p.2).findSome? fun rest2 =>
        (spTitle rest2).map fun title => (p.1, title)

/-- Shape (b): timestamp token, whitespace, title. -/
def pat2 (l : List Char) : Option (List Char × List Char) :=
  (tsCore l).findSome? fun p =>
    (spTitle p.2).map fun title => (p.1, title)

/-- Tail of shape (c): whitespace run, optional opening bracket, timestamp
token, optional closing bracket, end anchor.  Returns the token group. -/
def pat3tail (r : List Char) : Option (List Char) :=
  (spacePlusSplits r).findSome? fun p =>
    (brOpens p.2).findSome? fun l1 =>
      (tsCore l1).findSome? fun q =>
        (brCloses q.2).findSome? fun rest3 =>
          if endOk rest3 then some q.1 else none

/-- Shape (c): lazy non-empty title group, whitespace, optionally
bracketed timestamp token at the end of the line.  Returns the two
captured groups in pattern order: title then token.  The lazy group tries
lengths from 1 upward and cannot contain a newline. -/
def pat3 (l : List Char) : Option (List Char × List Char) :=
  (List.range l.length).findSome? fun k =>
    let g1 := l.take (k + 1)
    if g1.contains '\n' then none
    else (pat3tail (l.drop (k + 1))).map fun tk => (g1, tk)

/-- Strip of a leading simple list marker, regex digits-then-dot then
whitespace (source line 79). -/
def stripOrdinal (l : List Char) : List Char :=
  match l with
  | c :: _ =>
    if isDigitC c then
      match l.drop (leadDigits l) with
      | '.' :: rest => rest.dropWhile isSpaceC
      | _ => l
    else l
  | [] => l

/-- Result of `parse_timestamp_line`: the dict with keys timestamp and
title. -/
structure ExtractionResult where
  timestamp : List Char
  title : List Char
deriving DecidableEq, Repr

/-- Group-to-field assignment of `parse_timestamp_line` (source lines
90-96): the first captured group is checked for a colon; if it contains
one it becomes the timestamp, otherwise the second group does.  Both
fields are stripped. -/
def mkRes (g0 g1 : List Char) : ExtractionResult :=
  if g0.contains ':' then ⟨trimSpace g0, trimSpace g1⟩
  else ⟨trimSpace g1, trimSpace g0⟩

/-- The ordered first-match-wins loop over the three shapes (source lines
81-89), returning the raw captured groups in pattern order. -/
def matchPatterns (l : List Char) : Option (List Char × List Char) :=
  match pat1 l with
  | some g => some g
  | none =>
    match pat2 l with
    | some g => some g
    | none => pat3 l

/-- `CueGenerator.parse_timestamp_line` (source lines 62-98): strip the
line, return none if empty, strip a leading ordinal marker, try the three
shapes in order, and assign groups by the colon check. -/
def parse_timestamp_line (line : List Char) : Option ExtractionResult :=
  let l := trimSpace line
  if l = [] then none
  else (matchPatterns (stripOrdinal l)).map fun g => mkRes g.1 g.2

/-! The file-reading driver and the CUE renderer. -/

/-- One parsed track as stored in `self.tracks`. -/
structure Track where
  title : List Char
  minutes : Int
  seconds : Int
  frames : Int
deriving DecidableEq, Repr

/-- The mutable fields of a `CueGenerator` object. -/
structure GenState where
  album : List Char
  artist : List Char
  year : List Char
  genre : List Char
  audio_file : List Char
  tracks : List Track
deriving DecidableEq, Repr

/-- `CueGenerator.__init__`: all fields empty. -/
def initState : GenState := ⟨[], [], [], [], [], []⟩

/-- Replace the tracks field of a state. -/
def setTracks (st : GenState) (ts : List Track) : GenState :=
  ⟨st.album, st.artist, st.year, st.genre, st.audio_file, ts⟩

/-- The loop body of `read_timestamps_file` (source lines 113-126),
processing lines from line number `n`: successfully extracted and
converted lines become tracks, extraction results whose token fails
`parse_timestamp` produce a printed warning modelled as a pair of the
1-based line number and the `ValueError` message; unmatched lines are
passed over. -/
def processGo : Nat → List (List Char) → List Track × List (Nat × List Char)
  | _, [] => ([], [])
  | n, line :: rest =>
    let acc := processGo (n + 1) rest
    match parse_timestamp_line line with
    | none => acc
    | some r =>
      match parse_timestamp r.timestamp with
      | Except.ok tc => (⟨r.title, tc.minutes, tc.seconds, tc.frames⟩ :: acc.1, acc.2)
      | Except.error e => (acc.1, (n, e) :: acc.2)

/-- All lines of the input processed, with 1-based line numbers. -/
def processLines (lines : List (List Char)) : List Track × List (Nat × List Char) :=
  processGo 1 lines

/-- Python exception values reaching the caller of
`read_timestamps_file`, by class. -/
inductive PyExc where
  | fileNotFound (msg : List Char)
  | valueError (msg : List Char)
  | generic (msg : List Char)
deriving DecidableEq, Repr

/-- The `str` of an exception: its message. -/
def PyExc.msg : PyExc → List Char
  | .fileNotFound m => m
  | .valueError m => m
  | .generic m => m

/-- Outcome of opening and reading the input file, the external
I/O effect of `read_timestamps_file`: readable content, a missing file
(`FileNotFoundError` from `open`), or some other `OSError` while
opening or reading, carrying its message. -/
inductive FileOutcome where
  | ok (lines : List (List Char))
  | missing (msg : List Char)
  | unreadable (msg : List Char)
deriving DecidableEq, Repr

/-- The protected body of `read_timestamps_file` (the `try` block, source
lines 109-132): read lines, process them, raise
`ValueError` if no track was extracted, otherwise assign `self.tracks`
and return the count. -/
def readBody (st : GenState) (fo : FileOutcome) : Except PyExc (GenState × Nat) :=
  match fo with
  | .missing m => Except.error (.fileNotFound m)
  | .unreadable m => Except.error (.generic m)
  | .ok lines =>
    let tracks := (processLines lines).1
    if tracks = [] then
      Except.error (.valueError (("No valid timestamps found in file").toList))
    else Except.ok (setTracks st tracks, tracks.length)

/-- `CueGenerator.read_timestamps_file` (source lines 100-137): the `try`
body wrapped by the two `except` clauses.  A `FileNotFoundError` is
re-raised as `FileNotFoundError` with the file path; every other
exception, including the no-tracks `ValueError`, is re-raised as a bare
`Exception` prefixed with the reading-error text.  The returned state is
the object state after the call. -/
def read_timestamps_file (st : GenState) (filepath : List Char) (fo : FileOutcome) :
    GenState × Except PyExc Nat :=
  match readBody st fo with
  | Except.ok (st2, n) => (st2, Except.ok n)
  | Except.error (.fileNotFound _) =>
    (st, Except.error (.fileNotFound (("File not found: ").toList ++ filepath)))
  | Except.error e =>
    (st, Except.error (.generic (("Error reading file: ").toList ++ e.msg)))

/-- Python `02d` formatting of an integer: zero-pad to width 2; the sign
counts toward the width. -/
def fmt02 (v : Int) : List Char :=
  if v < 0 then '-' :: Nat.toDigits 10 v.natAbs
  else if v < 10 then '0' :: Nat.toDigits 10 v.toNat
  else Nat.toDigits 10 v.toNat

/-- Header lines of the CUE sheet (source lines 184-190).  The current
year printed when no year was entered is passed in as `nowYear`. -/
def headerLines (nowYear : List Char) (st : GenState) : List (List Char) :=
  [ (if st.genre ≠ [] then ("REM GENRE \"").toList ++ st.genre ++ [ '"' ]
     else ("REM GENRE \"Unknown\"").toList),
    (if st.year ≠ [] then ("REM DATE ").toList ++ st.year
     else ("REM DATE ").toList ++ nowYear),
    ("REM COMMENT \"Generated by YouTube to CUE Converter\"").toList,
    ("PERFORMER \"").toList ++ st.artist ++ [ '"' ],
    ("TITLE \"").toList ++ st.album ++ [ '"' ],
    ("FILE \"").toList ++ st.audio_file ++ ("\" WAVE").toList ]

/-- The four lines of one TRACK block (source lines 193-196), for track
number `i`. -/
def trackBlock (artist : List Char) (i : Nat) (t : Track) : List (List Char) :=
  [ ("  TRACK ").toList ++ fmt02 (Int.ofNat i) ++ (" AUDIO").toList,
    ("    TITLE \"").toList ++ t.title ++ [ '"' ],
    ("    PERFORMER \"").toList ++ artist ++ [ '"' ],
    ("    INDEX 01 ").toList ++ fmt02 t.minutes ++ ':' :: fmt02 t.seconds ++
      ':' :: fmt02 t.frames ]

/-- The track blocks of all tracks, numbering from `i` (the loop
`enumerate(self.tracks, 1)` of source line 192 starts at 1). -/
def tracksLines (artist : List Char) : Nat → List Track → List (List Char)
  | _, [] => []
  | i, t :: ts => trackBlock artist i t ++ tracksLines artist (i + 1) ts

/-- Python `newline.join`: concatenate lines with a newline between
consecutive ones. -/
def joinNL : List (List Char) → List Char
  | [] => []
  | [x] => x
  | x :: xs => x ++ '\n' :: joinNL xs

/-- `CueGenerator.generate_cue_content` (source lines 176-198). -/
def generate_cue_content (nowYear : List Char) (st : GenState) : List Char :=
  joinNL (headerLines nowYear st ++ tracksLines st.artist 1 st.tracks)

/-- The `parse_timestamp_line` method with the object state made
explicit.  The Python method body references no attribute of `self`, so
its embedding returns the state unchanged and a result computed from the
line alone. -/
def parse_timestamp_line_method (st : GenState) (line : List Char) :
    GenState × Option ExtractionResult :=
  (st, parse_timestamp_line line)

/-- Decides whether some contiguous substring of `l` has the shape of a
timestamp token (the token shapes have lengths 4, 5, 7 and 8 only). -/
def hasTsSub (l : List Char) : Bool :=
  (List.range (l.length + 1)).any fun i =>
    ([4, 5, 7, 8] : List Nat).any fun n => tsShaped ((l.drop i).take n)

/-- The spec's reduced pattern chain with shape (b) removed (design note
of spec section 4.2): shape (a) first, then shape (c). -/
def matchPatternsNoB (l : List Char) : Option (List Char × List Char) :=
  match pat1 l with
  | some g => some g
  | none => pat3 l

/-- The line extractor run over the reduced pattern chain without shape
(b); used to state that removing shape (b) does not change the
extractor. -/
def parse_timestamp_line_noB (line : List Char) : Option ExtractionResult :=
  let l := trimSpace line
  if l = [] then none
  else (matchPatternsNoB (stripOrdinal l)).map fun g => mkRes g.1 g.2

end YT2CUE

namespace YT2CUE

/-! Character-class facts. -/

/-- Unfolding of `isSpaceC` into the six possible characters. -/
theorem isSpaceC_cases {c : Char} (h : isSpaceC c = true) :
    c = ' ' ∨ c = '\t' ∨ c = '\n' ∨ c = '\r' ∨ c = '\x0b' ∨ c = '\x0c' := by
  simp [isSpaceC] at h
  tauto

/-- Reduction of `Except` bind on a success value. -/
theorem exceptBindOk {e a b : Type} (x : a) (f : a → Except e b) :
    (Except.ok x >>= f) = f x := rfl

/-- Reduction of `Except` bind on an error value. -/
theorem exceptBindErr {e a b : Type} (er : e) (f : a → Except e b) :
    ((Except.error er : Except e a) >>= f) = Except.error er := rfl

/-- `isOk` holds on success values. -/
theorem exceptIsOkOk {e a : Type} (x : a) : (Except.ok x : Except e a).isOk = true := rfl

/-- `isOk` fails on error values. -/
theorem exceptIsOkErr {e a : Type} (er : e) :
    (Except.error er : Except e a).isOk = false := rfl

/-- A character on which a Boolean class holds differs from one on which
it fails. -/
theorem bool_fn_ne {f : Char → Bool} {c x : Char} (h : f c = true) (hx : f x = false) :
    c ≠ x := by
  intro he
  subst he
  rw [h] at hx
  cases hx

/-- Digits are not whitespace. -/
theorem digit_not_space {c : Char} (h : isDigitC c = true) : isSpaceC c = false := by
  cases hs : isSpaceC c with
  | false => rfl
  | true =>
    rcases isSpaceC_cases hs with h1 | h1 | h1 | h1 | h1 | h1 <;>
      (subst h1; exact absurd h (by decide))

/-! Facts about `trimSpace` and `splitColon`. -/

/-- `dropWhile` is the identity when the predicate fails everywhere. -/
theorem dropWhile_eq_self_of {p : Char → Bool} :
    ∀ {l : List Char}, (∀ c ∈ l, p c = false) → l.dropWhile p = l
  | [], _ => rfl
  | c :: cs, h => by
    have hc : p c = false := h c (List.mem_cons_self c cs)
    simp [List.dropWhile, hc]

/-- Stripping a string without whitespace is the identity. -/
theorem trimSpace_noSpace {l : List Char} (h : ∀ c ∈ l, isSpaceC c = false) :
    trimSpace l = l := by
  unfold trimSpace
  rw [dropWhile_eq_self_of h,
    dropWhile_eq_self_of (fun c hc => h c (List.mem_reverse.mp hc)),
    List.reverse_reverse]

/-- Stripping an all-whitespace string gives the empty string. -/
theorem trimSpace_allSpace {l : List Char} (h : ∀ c ∈ l, isSpaceC c = true) :
    trimSpace l = [] := by
  unfold trimSpace
  rw [List.dropWhile_eq_nil_iff.mpr h]
  rfl

/-- `splitColon` never returns the empty list of groups. -/
theorem splitColon_ne_nil : ∀ l : List Char, splitColon l ≠ []
  | [] => by simp [splitColon]
  | c :: cs => by
    cases h : splitColon cs with
    | nil => simp [splitColon, h]
    | cons g gs =>
      by_cases hc : c = ':' <;> simp [splitColon, h, hc]

/-- A colon-free string is a single group. -/
theorem splitColon_noColon : ∀ {s : List Char}, (∀ c ∈ s, c ≠ ':') → splitColon s = [s]
  | [], _ => rfl
  | c :: cs, h => by
    have ih := splitColon_noColon (fun x hx => h x (List.mem_cons_of_mem c hx))
    have hc : ¬(c = ':') := h c (List.mem_cons_self c cs)
    simp [splitColon, ih, hc]

/-- Splitting at the first colon after a colon-free group. -/
theorem splitColon_colon_append :
    ∀ {m : List Char} (r : List Char), (∀ c ∈ m, c ≠ ':') →
      splitColon (m ++ ':' :: r) = m :: splitColon r
  | [], r, _ => by
    cases h : splitColon r with
    | nil => exact absurd h (splitColon_ne_nil r)
    | cons g gs => simp [splitColon, h]
  | c :: m', r, h => by
    have ih := splitColon_colon_append r (fun x hx => h x (List.mem_cons_of_mem c hx))
    have hc : ¬(c = ':') := h c (List.mem_cons_self c m')
    simp [splitColon, ih, hc]

/-! Facts about `pyInt` on plain digit strings. -/

/-- Lists without underscores have no adjacent double underscore. -/
theorem noDoubleUnd_of_no_und : ∀ {l : List Char}, (∀ c ∈ l, c ≠ '_') → noDoubleUnd l = true
  | [], _ => rfl
  | [_], _ => rfl
  | a :: b :: r, h => by
    have ih := noDoubleUnd_of_no_und (fun x hx => h x (List.mem_cons_of_mem a hx))
    have ha : ¬(a = '_') := h a (by simp)
    simp [noDoubleUnd, ih, ha]

/-- A non-empty all-digit string is a valid `int()` literal body. -/
theorem digitsOk_digits {l : List Char} (h0 : l ≠ [])
    (h : ∀ c ∈ l, isDigitC c = true) : digitsOk l = true := by
  have hhead : headDigit l = true := by
    rcases l with _ | ⟨c, cs⟩
    · exact absurd rfl h0
    · simp [headDigit, h c (by simp)]
  have hrev : headDigit l.reverse = true := by
    rcases hr : l.reverse with _ | ⟨c, cs⟩
    · rw [List.reverse_eq_nil_iff] at hr
      exact absurd hr h0
    · have hc : c ∈ l.reverse := by rw [hr]; simp
      simp [headDigit, h c (List.mem_reverse.mp hc)]
  have hall : l.all (fun c => isDigitC c || c == '_') = true :=
    List.all_eq_true.mpr fun c hc => by simp [h c hc]
  have hund : noDoubleUnd l = true :=
    noDoubleUnd_of_no_und fun c hc => bool_fn_ne (h c hc) (by decide)
  simp [digitsOk, hhead, hrev, hall, hund]

/-- `int()` on a non-empty all-digit string returns its decimal value. -/
theorem pyInt_digits {l : List Char} (h0 : l ≠ []) (h : ∀ c ∈ l, isDigitC c = true) :
    pyInt l = some (Int.ofNat (digitsVal l)) := by
  have ht : trimSpace l = l := trimSpace_noSpace fun c hc => digit_not_space (h c hc)
  rcases l with _ | ⟨c, cs⟩
  · exact absurd rfl h0
  · have hc : isDigitC c = true := h c (by simp)
    have h1 : ¬(c = '+') := bool_fn_ne hc (by decide)
    have h2 : ¬(c = '-') := bool_fn_ne hc (by decide)
    have hok : digitsOk (c :: cs) = true := digitsOk_digits (by simp) h
    simp [pyInt, ht, h1, h2, hok]

/-- `pyIntE` variant of `pyInt_digits`. -/
theorem pyIntE_digits {l : List Char} (h0 : l ≠ []) (h : ∀ c ∈ l, isDigitC c = true) :
    pyIntE l = Except.ok (Int.ofNat (digitsVal l)) := by
  simp [pyIntE, pyInt_digits h0 h]

/-- Two-group tokens built from digit groups parse to (minutes, seconds). -/
theorem parse_two {m s : List Char} (hm0 : m ≠ []) (hm : ∀ c ∈ m, isDigitC c = true)
    (hs0 : s ≠ []) (hs : ∀ c ∈ s, isDigitC c = true) :
    parse_timestamp (m ++ ':' :: s) =
      Except.ok ⟨Int.ofNat (digitsVal m), Int.ofNat (digitsVal s), 0⟩ := by
  have hnsp : ∀ c ∈ m ++ ':' :: s, isSpaceC c = false := by
    intro c hc
    rcases List.mem_append.mp hc with h1 | h1
    · exact digit_not_space (hm c h1)
    · rcases List.mem_cons.mp h1 with h2 | h2
      · subst h2; decide
      · exact digit_not_space (hs c h2)
  have ht : trimSpace (m ++ ':' :: s) = m ++ ':' :: s := trimSpace_noSpace hnsp
  have hsp : splitColon (m ++ ':' :: s) = [m, s] := by
    rw [splitColon_colon_append _ (fun c hc => bool_fn_ne (hm c hc) (by decide)),
      splitColon_noColon (fun c hc => bool_fn_ne (hs c hc) (by decide))]
  simp [parse_timestamp, ht, hsp, pyIntE_digits hm0 hm, pyIntE_digits hs0 hs,
    exceptBindOk]

/-- Three-group tokens built from digit groups parse with hours folded
into minutes. -/
theorem parse_three {h m s : List Char} (hh0 : h ≠ []) (hh : ∀ c ∈ h, isDigitC c = true)
    (hm0 : m ≠ []) (hm : ∀ c ∈ m, isDigitC c = true)
    (hs0 : s ≠ []) (hs : ∀ c ∈ s, isDigitC c = true) :
    parse_timestamp (h ++ ':' :: (m ++ ':' :: s)) =
      Except.ok ⟨Int.ofNat (digitsVal m) + Int.ofNat (digitsVal h) * 60,
        Int.ofNat (digitsVal s), 0⟩ := by
  have hnsp : ∀ c ∈ h ++ ':' :: (m ++ ':' :: s), isSpaceC c = false := by
    intro c hc
    rcases List.mem_append.mp hc with h1 | h1
    · exact digit_not_space (hh c h1)
    · rcases List.mem_cons.mp h1 with h2 | h2
      · subst h2; decide
      · rcases List.mem_append.mp h2 with h3 | h3
        · exact digit_not_space (hm c h3)
        · rcases List.mem_cons.mp h3 with h4 | h4
          · subst h4; decide
          · exact digit_not_space (hs c h4)
  have ht : trimSpace (h ++ ':' :: (m ++ ':' :: s)) = h ++ ':' :: (m ++ ':' :: s) :=
    trimSpace_noSpace hnsp
  have hsp : splitColon (h ++ ':' :: (m ++ ':' :: s)) = [h, m, s] := by
    rw [splitColon_colon_append _ (fun c hc => bool_fn_ne (hh c hc) (by decide)),
      splitColon_colon_append _ (fun c hc => bool_fn_ne (hm c hc) (by decide)),
      splitColon_noColon (fun c hc => bool_fn_ne (hs c hc) (by decide))]
  simp [parse_timestamp, ht, hsp, pyIntE_digits hh0 hh, pyIntE_digits hm0 hm,
    pyIntE_digits hs0 hs, exceptBindOk]

/-- C1: for every 2-group token built from a 1-or-2-digit minutes group
and a 2-digit seconds group, `parse_timestamp` succeeds with exactly
those literal values and frames 0 (the seconds group is never re-bounded,
so a seconds value such as 75 is returned literally); for every 3-group
token the hours group is folded into minutes as H*60+MM and the seconds
group is again returned literally. -/
theorem C1_parse_timestamp_groups :
    (∀ m s : List Char, m ≠ [] → m.length ≤ 2 → (∀ c ∈ m, isDigitC c = true) →
      s.length = 2 → (∀ c ∈ s, isDigitC c = true) →
      parse_timestamp (m ++ ':' :: s) =
        Except.ok ⟨Int.ofNat (digitsVal m), Int.ofNat (digitsVal s), 0⟩) ∧
    (∀ h m s : List Char, h ≠ [] → h.length ≤ 2 → (∀ c ∈ h, isDigitC c = true) →
      m.length = 2 → (∀ c ∈ m, isDigitC c = true) →
      s.length = 2 → (∀ c ∈ s, isDigitC c = true) →
      parse_timestamp (h ++ ':' :: (m ++ ':' :: s)) =
        Except.ok ⟨Int.ofNat (digitsVal h) * 60 + Int.ofNat (digitsVal m),
          Int.ofNat (digitsVal s), 0⟩) := by
  constructor
  · intro m s hm0 _ hm hs2 hs
    have hs0 : s ≠ [] := by
      intro he; rw [he] at hs2; exact absurd hs2 (by decide)
    exact parse_two hm0 hm hs0 hs
  · intro h m s hh0 _ hh hm2 hm hs2 hs
    have hm0 : m ≠ [] := by
      intro he; rw [he] at hm2; exact absurd hm2 (by decide)
    have hs0 : s ≠ [] := by
      intro he; rw [he] at hs2; exact absurd hs2 (by decide)
    rw [parse_three hh0 hh hm0 hm hs0 hs]
    rw [Int.add_comm]

/-- C1 witness: the concrete tokens 1:75 (seconds 75 kept literally) and
1:02:75 (62 minutes). -/
theorem C1_parse_timestamp_groups_witness :
    parse_timestamp (("1:75").toList) = Except.ok ⟨1, 75, 0⟩ ∧
    parse_timestamp (("1:02:75").toList) = Except.ok ⟨62, 75, 0⟩ := by
  constructor
  · exact C1_parse_timestamp_groups.1 ['1'] ['7', '5'] (by decide) (by decide)
      (by decide) (by decide) (by decide)
  · exact C1_parse_timestamp_groups.2 ['1'] ['0', '2'] ['7', '5'] (by decide)
      (by decide) (by decide) (by decide) (by decide) (by decide) (by decide)

/-- C5: `parse_timestamp` succeeds exactly when the stripped token splits
into 2 or 3 colon-delimited groups and every group is `int()`-parseable;
the empty token, a letter token and a 4-group token each fail. -/
theorem C5_parse_failure_characterization :
    (∀ t : List Char, (parse_timestamp t).isOk = true ↔
      (((splitColon (trimSpace t)).length = 2 ∨ (splitColon (trimSpace t)).length = 3) ∧
       ∀ p ∈ splitColon (trimSpace t), (pyInt p).isSome = true)) ∧
    (parse_timestamp (("").toList)).isOk = false ∧
    (parse_timestamp (("abc").toList)).isOk = false ∧
    (parse_timestamp (("1:2:3:4").toList)).isOk = false := by
  refine ⟨fun t => ?_, by decide, by decide, by decide⟩
  rcases hps : splitColon (trimSpace t) with _ | ⟨a, tl1⟩
  · simp [parse_timestamp, hps, exceptIsOkErr]
  rcases tl1 with _ | ⟨b, tl2⟩
  · simp [parse_timestamp, hps, exceptIsOkErr]
  rcases tl2 with _ | ⟨c, tl3⟩
  · rcases h1 : pyInt a with _ | va <;> rcases h2 : pyInt b with _ | vb <;>
      simp [parse_timestamp, hps, pyIntE, h1, h2, exceptBindOk, exceptBindErr,
        exceptIsOkOk, exceptIsOkErr]
  rcases tl3 with _ | ⟨d, tl4⟩
  · rcases h1 : pyInt a with _ | va <;> rcases h2 : pyInt b with _ | vb <;>
      rcases h3 : pyInt c with _ | vc <;>
      simp [parse_timestamp, hps, pyIntE, h1, h2, h3, exceptBindOk, exceptBindErr,
        exceptIsOkOk, exceptIsOkErr]
  · simp [parse_timestamp, hps, exceptIsOkErr]

end YT2CUE


namespace YT2CUE

/-! Infix plumbing with explicit constructions. -/

/-- A prefix is an infix. -/
theorem infix_of_pref {l1 l2 : List Char} (h : l1 <+: l2) : l1 <:+: l2 := by
  rcases h with ⟨t, ht⟩
  exact ⟨[], t, by simpa using ht⟩

/-- A suffix is an infix. -/
theorem infix_of_suff {l1 l2 : List Char} (h : l1 <:+ l2) : l1 <:+: l2 := by
  rcases h with ⟨t, ht⟩
  exact ⟨t, [], by simpa using ht⟩

/-! Shape decomposition of the timestamp-token recognizers. -/

/-- Structure of a string accepted by `ts4`. -/
theorem ts4_shape {s : List Char} (h : ts4 s = true) :
    ∃ a c d, s = [a, ':', c, d] ∧ isDigitC a = true ∧ isDigitC c = true ∧
      isDigitC d = true := by
  unfold ts4 at h
  split at h
  · rename_i a x c d
    simp only [Bool.and_eq_true, beq_iff_eq] at h
    exact ⟨a, c, d, by rw [h.1.1.2], h.1.1.1, h.1.2, h.2⟩
  · cases h

/-- Structure of a string accepted by `ts5`. -/
theorem ts5_shape {s : List Char} (h : ts5 s = true) :
    ∃ a b c d, s = [a, b, ':', c, d] ∧ isDigitC a = true ∧ isDigitC b = true ∧
      isDigitC c = true ∧ isDigitC d = true := by
  unfold ts5 at h
  split at h
  · rename_i a b x c d
    simp only [Bool.and_eq_true, beq_iff_eq] at h
    exact ⟨a, b, c, d, by rw [h.1.1.2], h.1.1.1.1, h.1.1.1.2, h.1.2, h.2⟩
  · cases h

/-- Structure of a string accepted by `ts7`. -/
theorem ts7_shape {s : List Char} (h : ts7 s = true) :
    ∃ a c d e f, s = [a, ':', c, d, ':', e, f] ∧ isDigitC a = true ∧
      isDigitC c = true ∧ isDigitC d = true ∧ isDigitC e = true ∧
      isDigitC f = true := by
  unfold ts7 at h
  split at h
  · rename_i a x c d y e f
    simp only [Bool.and_eq_true, beq_iff_eq] at h
    obtain ⟨⟨⟨⟨⟨⟨ha, hx⟩, hc⟩, hd⟩, hy⟩, he⟩, hf⟩ := h
    exact ⟨a, c, d, e, f, by rw [hx, hy], ha, hc, hd, he, hf⟩
  · cases h

/-- Structure of a string accepted by `ts8`. -/
theorem ts8_shape {s : List Char} (h : ts8 s = true) :
    ∃ a b c d e f, s = [a, b, ':', c, d, ':', e, f] ∧ isDigitC a = true ∧
      isDigitC b = true ∧ isDigitC c = true ∧ isDigitC d = true ∧
      isDigitC e = true ∧ isDigitC f = true := by
  unfold ts8 at h
  split at h
  · rename_i a b x c d y e f
    simp only [Bool.and_eq_true, beq_iff_eq] at h
    obtain ⟨⟨⟨⟨⟨⟨⟨ha, hb⟩, hx⟩, hc⟩, hd⟩, hy⟩, he⟩, hf⟩ := h
    exact ⟨a, b, c, d, e, f, by rw [hx, hy], ha, hb, hc, hd, he, hf⟩
  · cases h

/-- A timestamp-shaped string has length 4, 5, 7 or 8. -/
theorem tsShaped_len {s : List Char} (h : tsShaped s = true) :
    s.length = 4 ∨ s.length = 5 ∨ s.length = 7 ∨ s.length = 8 := by
  simp only [tsShaped, Bool.or_eq_true] at h
  rcases h with ((h | h) | h) | h
  · rcases ts4_shape h with ⟨a, c, d, he, _⟩
    rw [he]; left; rfl
  · rcases ts5_shape h with ⟨a, b, c, d, he, _⟩
    rw [he]; right; left; rfl
  · rcases ts7_shape h with ⟨a, c, d, e, f, he, _⟩
    rw [he]; right; right; left; rfl
  · rcases ts8_shape h with ⟨a, b, c, d, e, f, he, _⟩
    rw [he]; right; right; right; rfl

/-! Membership facts for the matcher building blocks. -/

/-- Membership in a conditional singleton list. -/
theorem mem_if_singleton {α : Type} {b : Bool} {x y : α}
    (h : y ∈ (if b = true then [x] else ([] : List α))) : b = true ∧ y = x := by
  by_cases hb : b = true
  · rw [if_pos hb] at h
    simp at h
    exact ⟨hb, h⟩
  · rw [if_neg hb] at h
    cases h

/-- Every alternative offered by `brOpens` is a suffix of the input. -/
theorem brOpens_suffix {l l1 : List Char} (h : l1 ∈ brOpens l) : l1 <:+ l := by
  rcases l with _ | ⟨c, rest⟩
  · simp [brOpens] at h
    rw [h]
  · by_cases hc : (c == '[' || c == '(') = true
    · rw [brOpens, if_pos hc] at h
      rcases List.mem_cons.mp h with h1 | h1
      · rw [h1]
        exact List.suffix_cons c rest
      · simp at h1
        rw [h1]
    · rw [brOpens, if_neg hc] at h
      simp at h
      rw [h]

/-- Every alternative offered by `brCloses` is a suffix of the input. -/
theorem brCloses_suffix {l l1 : List Char} (h : l1 ∈ brCloses l) : l1 <:+ l := by
  rcases l with _ | ⟨c, rest⟩
  · simp [brCloses] at h
    rw [h]
  · by_cases hc : (c == ']' || c == ')') = true
    · rw [brCloses, if_pos hc] at h
      rcases List.mem_cons.mp h with h1 | h1
      · rw [h1]
        exact List.suffix_cons c rest
      · simp at h1
        rw [h1]
    · rw [brCloses, if_neg hc] at h
      simp at h
      rw [h]

/-- Every remainder offered by `spacePlusSplits` is a suffix of the input. -/
theorem spacePlus_suffix {r : List Char} {p : List Char × List Char}
    (h : p ∈ spacePlusSplits r) : p.2 <:+ r := by
  unfold spacePlusSplits at h
  rcases List.mem_map.mp h with ⟨i, _, he⟩
  rw [← he]
  exact List.drop_suffix _ r

/-- Every candidate offered by `tsCore` is a timestamp-shaped prefix of
the input. -/
theorem tsCore_mem {l : List Char} {p : List Char × List Char} (h : p ∈ tsCore l) :
    tsShaped p.1 = true ∧ p.1 <+: l := by
  unfold tsCore at h
  rcases List.mem_append.mp h with h | h4
  rotate_left
  · rcases mem_if_singleton h4 with ⟨hc, he⟩
    rw [he]
    exact ⟨by simp [tsShaped, hc], List.take_prefix 4 l⟩
  rcases List.mem_append.mp h with h | h7
  rotate_left
  · rcases mem_if_singleton h7 with ⟨hc, he⟩
    rw [he]
    exact ⟨by simp [tsShaped, hc], List.take_prefix 7 l⟩
  rcases List.mem_append.mp h with h8 | h5
  · rcases mem_if_singleton h8 with ⟨hc, he⟩
    rw [he]
    exact ⟨by simp [tsShaped, hc], List.take_prefix 8 l⟩
  · rcases mem_if_singleton h5 with ⟨hc, he⟩
    rw [he]
    exact ⟨by simp [tsShaped, hc], List.take_prefix 5 l⟩

end YT2CUE


namespace YT2CUE

/-- A matched shape (a) carries a timestamp-shaped first group inside the
line. -/
theorem pat1_token {l : List Char} {g : List Char × List Char} (h : pat1 l = some g) :
    tsShaped g.1 = true ∧ g.1 <:+: l := by
  unfold pat1 at h
  rcases List.exists_of_findSome?_eq_some h with ⟨l1, hl1, h1⟩
  rcases List.exists_of_findSome?_eq_some h1 with ⟨p, hp, h2⟩
  rcases List.exists_of_findSome?_eq_some h2 with ⟨r2, _, h3⟩
  rcases hmap : spTitle r2 with _ | t
  · rw [hmap] at h3
    cases h3
  · rw [hmap] at h3
    injection h3 with h4
    rcases tsCore_mem hp with ⟨hsh, hpre⟩
    have hinf : p.1 <:+: l :=
      (infix_of_pref hpre).trans (infix_of_suff (brOpens_suffix hl1))
    rw [← h4]
    exact ⟨hsh, hinf⟩

/-- A matched shape (b) carries a timestamp-shaped first group inside the
line. -/
theorem pat2_token {l : List Char} {g : List Char × List Char} (h : pat2 l = some g) :
    tsShaped g.1 = true ∧ g.1 <:+: l := by
  unfold pat2 at h
  rcases List.exists_of_findSome?_eq_some h with ⟨p, hp, h2⟩
  rcases hmap : spTitle p.2 with _ | t
  · rw [hmap] at h2
    cases h2
  · rw [hmap] at h2
    injection h2 with h4
    rcases tsCore_mem hp with ⟨hsh, hpre⟩
    rw [← h4]
    exact ⟨hsh, infix_of_pref hpre⟩

/-- A successful shape (c) tail carries a timestamp-shaped token inside
its input. -/
theorem pat3tail_token {r tk : List Char} (h : pat3tail r = some tk) :
    tsShaped tk = true ∧ tk <:+: r := by
  unfold pat3tail at h
  rcases List.exists_of_findSome?_eq_some h with ⟨p, hp, h1⟩
  rcases List.exists_of_findSome?_eq_some h1 with ⟨l1, hl1, h2⟩
  rcases List.exists_of_findSome?_eq_some h2 with ⟨q, hq, h3⟩
  rcases List.exists_of_findSome?_eq_some h3 with ⟨r3, _, h4⟩
  by_cases hend : endOk r3 = true
  · rw [if_pos hend] at h4
    injection h4 with h5
    rcases tsCore_mem hq with ⟨hsh, hpre⟩
    have hinf : q.1 <:+: r :=
      ((infix_of_pref hpre).trans (infix_of_suff (brOpens_suffix hl1))).trans
        (infix_of_suff (spacePlus_suffix hp))
    rw [← h5]
    exact ⟨hsh, hinf⟩
  · rw [if_neg hend] at h4
    cases h4

/-- A matched shape (c) carries a timestamp-shaped second group inside
the line. -/
theorem pat3_token {l : List Char} {g : List Char × List Char} (h : pat3 l = some g) :
    tsShaped g.2 = true ∧ g.2 <:+: l := by
  unfold pat3 at h
  rcases List.exists_of_findSome?_eq_some h with ⟨k, _, h1⟩
  by_cases hnl : (l.take (k + 1)).contains '\n' = true
  · rw [if_pos hnl] at h1
    cases h1
  · rw [if_neg hnl] at h1
    rcases hmap : pat3tail (l.drop (k + 1)) with _ | tk
    · rw [hmap] at h1
      cases h1
    · rw [hmap] at h1
      injection h1 with h2
      rcases pat3tail_token hmap with ⟨hsh, hin⟩
      rw [← h2]
      exact ⟨hsh, hin.trans (infix_of_suff (List.drop_suffix _ l))⟩

/-- Whatever pattern fires, the match contains a timestamp-shaped token
inside the line. -/
theorem matchPatterns_token {l : List Char} {g : List Char × List Char}
    (h : matchPatterns l = some g) :
    ∃ tk, tsShaped tk = true ∧ tk <:+: l := by
  unfold matchPatterns at h
  rcases h1 : pat1 l with _ | g1
  · rw [h1] at h
    rcases h2 : pat2 l with _ | g2
    · rw [h2] at h
      simp only at h
      rcases pat3_token h with ⟨hsh, hin⟩
      exact ⟨g.2, hsh, hin⟩
    · rw [h2] at h
      simp only at h
      rcases pat2_token h2 with ⟨hsh, hin⟩
      exact ⟨g2.1, hsh, hin⟩
  · rw [h1] at h
    simp only at h
    rcases pat1_token h1 with ⟨hsh, hin⟩
    exact ⟨g1.1, hsh, hin⟩

/-- Stripping whitespace yields an infix of the original line. -/
theorem trimSpace_inside (l : List Char) : trimSpace l <:+: l := by
  unfold trimSpace
  have hA : l.dropWhile isSpaceC <:+ l := List.dropWhile_suffix _
  have hB : (l.dropWhile isSpaceC).reverse.dropWhile isSpaceC <:+
      (l.dropWhile isSpaceC).reverse := List.dropWhile_suffix _
  rcases hB with ⟨pre, hpre⟩
  have hP : ((l.dropWhile isSpaceC).reverse.dropWhile isSpaceC).reverse <+:
      l.dropWhile isSpaceC := by
    refine ⟨pre.reverse, ?_⟩
    have h2 := congrArg List.reverse hpre
    rwa [List.reverse_append, List.reverse_reverse] at h2
  exact (infix_of_pref hP).trans (infix_of_suff hA)

/-- The ordinal-marker strip yields a suffix of its input. -/
theorem stripOrdinal_suffix (l : List Char) : stripOrdinal l <:+ l := by
  rcases l with _ | ⟨c, rest⟩
  · exact List.suffix_refl _
  · simp only [stripOrdinal]
    by_cases hdig : isDigitC c = true
    · rw [if_pos hdig]
      split
      next r2 heq =>
        have h2 : '.' :: r2 <:+ c :: rest := by
          rw [← heq]
          exact List.drop_suffix _ _
        exact (List.dropWhile_suffix _).trans ((List.suffix_cons '.' r2).trans h2)
      next =>
        exact List.suffix_refl _
    · rw [if_neg hdig]

/-- A timestamp-shaped infix makes `hasTsSub` true. -/
theorem hasTsSub_of {line tk : List Char} (hsh : tsShaped tk = true)
    (hin : tk <:+: line) : hasTsSub line = true := by
  rcases hin with ⟨pre, post, he⟩
  have hdrop : line.drop pre.length = tk ++ post := by
    rw [← he, List.append_assoc]
    exact List.drop_left pre (tk ++ post)
  have htake : (line.drop pre.length).take tk.length = tk := by
    rw [hdrop]
    exact List.take_left tk post
  have hlen : pre.length < line.length + 1 := by
    have h2 := congrArg List.length he
    simp only [List.length_append] at h2
    omega
  unfold hasTsSub
  rw [List.any_eq_true]
  refine ⟨pre.length, List.mem_range.mpr hlen, ?_⟩
  rw [List.any_eq_true]
  rcases tsShaped_len hsh with h4 | h4 | h4 | h4 <;>
    exact ⟨tk.length, by rw [h4]; decide, by rw [htake]; exact hsh⟩

/-- C2: the line extractor returns exactly the documented pair on each
canonical input shape (bare prefix, bracketed prefix, suffix form,
ordinal-prefixed form), and returns no match on a whitespace-only line
and on any line containing no timestamp-shaped substring. -/
theorem C2_extractor_canonical_shapes :
    parse_timestamp_line (("0:00 Intro").toList) =
      some ⟨("0:00").toList, ("Intro").toList⟩ ∧
    parse_timestamp_line (("[0:00] Intro").toList) =
      some ⟨("0:00").toList, ("Intro").toList⟩ ∧
    parse_timestamp_line (("Intro (0:00)").toList) =
      some ⟨("0:00").toList, ("Intro").toList⟩ ∧
    parse_timestamp_line (("1. 0:05 Second Track").toList) =
      some ⟨("0:05").toList, ("Second Track").toList⟩ ∧
    (∀ l : List Char, (∀ c ∈ l, isSpaceC c = true) → parse_timestamp_line l = none) ∧
    (∀ l : List Char, hasTsSub l = false → parse_timestamp_line l = none) := by
  refine ⟨by decide, by decide, by decide, by decide, fun l h => ?_, fun l h => ?_⟩
  · simp [parse_timestamp_line, trimSpace_allSpace h]
  · rcases hr : parse_timestamp_line l with _ | r
    · rfl
    · exfalso
      simp only [parse_timestamp_line] at hr
      by_cases h0 : trimSpace l = []
      · rw [if_pos h0] at hr
        cases hr
      · rw [if_neg h0] at hr
        rcases hm : matchPatterns (stripOrdinal (trimSpace l)) with _ | g
        · rw [hm] at hr
          cases hr
        · rcases matchPatterns_token hm with ⟨tk, hsh, hin⟩
          have hin2 : tk <:+: l :=
            (hin.trans (infix_of_suff (stripOrdinal_suffix _))).trans (trimSpace_inside l)
          rw [hasTsSub_of hsh hin2] at h
          cases h

/-- C2 witness: the no-match conclusions at the spec's concrete unmatched
lines. -/
theorem C2_extractor_canonical_shapes_witness :
    parse_timestamp_line (("   ").toList) = none ∧
    parse_timestamp_line (("just text, no timestamp").toList) = none := by
  constructor
  · exact C2_extractor_canonical_shapes.2.2.2.2.1 (("   ").toList) (by decide)
  · exact C2_extractor_canonical_shapes.2.2.2.2.2 (("just text, no timestamp").toList)
      (by decide)

end YT2CUE


namespace YT2CUE

/-- Boolean disequality from a separating character class. -/
theorem beq_false_of_fn {f : Char → Bool} {c x : Char} (h : f c = true)
    (hx : f x = false) : (c == x) = false :=
  beq_eq_false_iff_ne.mpr (bool_fn_ne h hx)

/-- `brOpens` offers only the unconsumed alternative when the head is a
digit. -/
theorem brOpens_digit {a : Char} (ha : isDigitC a = true) (rest : List Char) :
    brOpens (a :: rest) = [a :: rest] := by
  have h1 : (a == '[') = false := beq_false_of_fn ha (by decide)
  have h2 : (a == '(') = false := beq_false_of_fn ha (by decide)
  simp [brOpens, h1, h2]

/-- `brCloses` offers only the unconsumed alternative when the head is
whitespace. -/
theorem brCloses_space {c : Char} (hc : isSpaceC c = true) (rest : List Char) :
    brCloses (c :: rest) = [c :: rest] := by
  have h1 : (c == ']') = false := beq_false_of_fn hc (by decide)
  have h2 : (c == ')') = false := beq_false_of_fn hc (by decide)
  simp [brCloses, h1, h2]

/-- The whitespace-then-title tail fails on a non-whitespace head. -/
theorem spTitle_cons_nospace {c : Char} (hc : isSpaceC c = false) (rest : List Char) :
    spTitle (c :: rest) = none := by
  unfold spTitle spacePlusSplits
  have h0 : leadSpaces (c :: rest) = 0 := by simp [leadSpaces, hc]
  rw [h0]
  rfl

/-- A successful whitespace-then-title tail starts with whitespace. -/
theorem spTitle_some_head {r t : List Char} (h : spTitle r = some t) :
    ∃ c r2, r = c :: r2 ∧ isSpaceC c = true := by
  unfold spTitle at h
  rcases List.exists_of_findSome?_eq_some h with ⟨p, hp, _⟩
  unfold spacePlusSplits at hp
  rcases List.mem_map.mp hp with ⟨i, hi, _⟩
  have hpos : 0 < leadSpaces r := Nat.lt_of_le_of_lt (Nat.zero_le i) (List.mem_range.mp hi)
  rcases r with _ | ⟨c, r2⟩
  · simp [leadSpaces] at hpos
  · refine ⟨c, r2, rfl, ?_⟩
    by_cases hc : isSpaceC c = true
    · exact hc
    · simp [leadSpaces, hc] at hpos

/-- `ts7` fails whenever the second character is not a colon. -/
theorem ts7_second_ne {a b : Char} {rest : List Char} (hb : (b == ':') = false) :
    ts7 (a :: b :: rest) = false := by
  unfold ts7
  split
  · rename_i heq
    injection heq with h1 heq
    injection heq with h2 heq
    subst h2
    simp [hb]
  · rfl

/-- `ts4` fails whenever the second character is not a colon. -/
theorem ts4_second_ne {a b : Char} {rest : List Char} (hb : (b == ':') = false) :
    ts4 (a :: b :: rest) = false := by
  unfold ts4
  split
  · rename_i heq
    injection heq with h1 heq
    injection heq with h2 heq
    subst h2
    simp [hb]
  · rfl

end YT2CUE


namespace YT2CUE

/-- Every match of shape (b) is also a match of shape (a) with the same
captured groups: the bare-prefix strict pattern is subsumed by the
bracketed-or-bare-prefix pattern. -/
theorem pat2_imp_pat1 {l : List Char} {g : List Char × List Char}
    (h : pat2 l = some g) : pat1 l = some g := by
  by_cases s8 : ts8 (l.take 8) = true
  · obtain ⟨a, b, c, d, e, f, hs, ha, hb, hc0, hd0, he0, hf0⟩ := ts8_shape s8
    have hl : a :: b :: ':' :: c :: d :: ':' :: e :: f :: l.drop 8 = l := by
      have h0 := List.take_append_drop 8 l
      rw [hs] at h0
      exact h0
    obtain ⟨u, hu⟩ : ∃ u, l.drop 8 = u := ⟨_, rfl⟩
    rw [hu] at hl
    subst hl
    have hbne : (b == ':') = false := beq_false_of_fn hb (by decide)
    have e8 : (a :: b :: ':' :: c :: d :: ':' :: e :: f :: u).take 8 =
      [a, b, ':', c, d, ':', e, f] := rfl
    have e5 : (a :: b :: ':' :: c :: d :: ':' :: e :: f :: u).take 5 =
      [a, b, ':', c, d] := rfl
    have e7 : (a :: b :: ':' :: c :: d :: ':' :: e :: f :: u).take 7 =
      [a, b, ':', c, d, ':', e] := rfl
    have e4 : (a :: b :: ':' :: c :: d :: ':' :: e :: f :: u).take 4 =
      [a, b, ':', c] := rfl
    have d8 : (a :: b :: ':' :: c :: d :: ':' :: e :: f :: u).drop 8 = u := rfl
    have d5 : (a :: b :: ':' :: c :: d :: ':' :: e :: f :: u).drop 5 =
      ':' :: e :: f :: u := rfl
    have d7 : (a :: b :: ':' :: c :: d :: ':' :: e :: f :: u).drop 7 = f :: u := rfl
    have d4 : (a :: b :: ':' :: c :: d :: ':' :: e :: f :: u).drop 4 =
      d :: ':' :: e :: f :: u := rfl
    rw [e8] at s8
    have h5c : ts5 [a, b, ':', c, d] = true := by simp [ts5, ha, hb, hc0, hd0]
    have h7c : ts7 [a, b, ':', c, d, ':', e] = false := ts7_second_ne hbne
    have h4c : ts4 [a, b, ':', c] = false := ts4_second_ne hbne
    have hcore : tsCore (a :: b :: ':' :: c :: d :: ':' :: e :: f :: u) =
        [([a, b, ':', c, d, ':', e, f], u), ([a, b, ':', c, d], ':' :: e :: f :: u)] := by
      unfold tsCore
      rw [e8, e5, e7, e4, d8, d5]
      simp [s8, h5c, h7c, h4c]
    rcases hsp8 : spTitle u with _ | t
    · have hsp5 : spTitle (':' :: e :: f :: u) = none :=
        spTitle_cons_nospace (by decide) _
      have hno : pat2 (a :: b :: ':' :: c :: d :: ':' :: e :: f :: u) = none := by
        unfold pat2
        rw [hcore]
        simp [hsp8, hsp5]
      rw [hno] at h
      cases h
    · have hsome : pat2 (a :: b :: ':' :: c :: d :: ':' :: e :: f :: u) =
          some ([a, b, ':', c, d, ':', e, f], t) := by
        unfold pat2
        rw [hcore]
        simp [hsp8]
      rw [hsome] at h
      injection h with h2
      obtain ⟨sp, r2, hu2, hspc⟩ := spTitle_some_head hsp8
      have hbo : brOpens (a :: b :: ':' :: c :: d :: ':' :: e :: f :: u) =
          [a :: b :: ':' :: c :: d :: ':' :: e :: f :: u] :=
        brOpens_digit ha (b :: ':' :: c :: d :: ':' :: e :: f :: u)
      have hbc : brCloses u = [u] := by
        rw [hu2]
        exact brCloses_space hspc r2
      rw [← h2]
      unfold pat1
      rw [hbo]
      simp [hcore, hbc, hsp8]
  · by_cases s5 : ts5 (l.take 5) = true
    · obtain ⟨a, b, c, d, hs, ha, hb, hc0, hd0⟩ := ts5_shape s5
      have hl : a :: b :: ':' :: c :: d :: l.drop 5 = l := by
        have h0 := List.take_append_drop 5 l
        rw [hs] at h0
        exact h0
      obtain ⟨u, hu⟩ : ∃ u, l.drop 5 = u := ⟨_, rfl⟩
      rw [hu] at hl
      subst hl
      have hbne : (b == ':') = false := beq_false_of_fn hb (by decide)
      have e8 : (a :: b :: ':' :: c :: d :: u).take 8 =
        a :: b :: ':' :: c :: d :: u.take 3 := rfl
      have e5 : (a :: b :: ':' :: c :: d :: u).take 5 = [a, b, ':', c, d] := rfl
      have e7 : (a :: b :: ':' :: c :: d :: u).take 7 =
        a :: b :: ':' :: c :: d :: u.take 2 := rfl
      have e4 : (a :: b :: ':' :: c :: d :: u).take 4 = [a, b, ':', c] := rfl
      have d8 : (a :: b :: ':' :: c :: d :: u).drop 8 = u.drop 3 := rfl
      have d5 : (a :: b :: ':' :: c :: d :: u).drop 5 = u := rfl
      have d7 : (a :: b :: ':' :: c :: d :: u).drop 7 = u.drop 2 := rfl
      have d4 : (a :: b :: ':' :: c :: d :: u).drop 4 = d :: u := rfl
      rw [e8] at s8
      have h7c : ts7 (a :: b :: ':' :: c :: d :: u.take 2) = false := ts7_second_ne hbne
      have h4c : ts4 [a, b, ':', c] = false := ts4_second_ne hbne
      have h5c : ts5 [a, b, ':', c, d] = true := by simp [ts5, ha, hb, hc0, hd0]
      have hcore : tsCore (a :: b :: ':' :: c :: d :: u) =
          [([a, b, ':', c, d], u)] := by
        unfold tsCore
        rw [e8, e5, e7, e4, d5]
        simp [s8, h5c, h7c, h4c]
      rcases hsp5 : spTitle u with _ | t
      · have hno : pat2 (a :: b :: ':' :: c :: d :: u) = none := by
          unfold pat2
          rw [hcore]
          simp [hsp5]
        rw [hno] at h
        cases h
      · have hsome : pat2 (a :: b :: ':' :: c :: d :: u) =
            some ([a, b, ':', c, d], t) := by
          unfold pat2
          rw [hcore]
          simp [hsp5]
        rw [hsome] at h
        injection h with h2
        obtain ⟨sp, r2, hu2, hspc⟩ := spTitle_some_head hsp5
        have hbo : brOpens (a :: b :: ':' :: c :: d :: u) =
            [a :: b :: ':' :: c :: d :: u] :=
          brOpens_digit ha (b :: ':' :: c :: d :: u)
        have hbc : brCloses u = [u] := by
          rw [hu2]
          exact brCloses_space hspc r2
        rw [← h2]
        unfold pat1
        rw [hbo]
        simp [hcore, hbc, hsp5]
    · by_cases s7 : ts7 (l.take 7) = true
      · obtain ⟨a, c, d, e, f, hs, ha, hc0, hd0, he0, hf0⟩ := ts7_shape s7
        have hl : a :: ':' :: c :: d :: ':' :: e :: f :: l.drop 7 = l := by
          have h0 := List.take_append_drop 7 l
          rw [hs] at h0
          exact h0
        obtain ⟨u, hu⟩ : ∃ u, l.drop 7 = u := ⟨_, rfl⟩
        rw [hu] at hl
        subst hl
        have e8 : (a :: ':' :: c :: d :: ':' :: e :: f :: u).take 8 =
          a :: ':' :: c :: d :: ':' :: e :: f :: u.take 1 := rfl
        have e5 : (a :: ':' :: c :: d :: ':' :: e :: f :: u).take 5 =
          [a, ':', c, d, ':'] := rfl
        have e7 : (a :: ':' :: c :: d :: ':' :: e :: f :: u).take 7 =
          [a, ':', c, d, ':', e, f] := rfl
        have e4 : (a :: ':' :: c :: d :: ':' :: e :: f :: u).take 4 =
          [a, ':', c, d] := rfl
        have d8 : (a :: ':' :: c :: d :: ':' :: e :: f :: u).drop 8 = u.drop 1 := rfl
        have d5 : (a :: ':' :: c :: d :: ':' :: e :: f :: u).drop 5 = e :: f :: u := rfl
        have d7 : (a :: ':' :: c :: d :: ':' :: e :: f :: u).drop 7 = u := rfl
        have d4 : (a :: ':' :: c :: d :: ':' :: e :: f :: u).drop 4 =
          ':' :: e :: f :: u := rfl
        rw [e8] at s8
        rw [e5] at s5
        rw [e7] at s7
        have h4c : ts4 [a, ':', c, d] = true := by simp [ts4, ha, hc0, hd0]
        have hcore : tsCore (a :: ':' :: c :: d :: ':' :: e :: f :: u) =
            [([a, ':', c, d, ':', e, f], u), ([a, ':', c, d], ':' :: e :: f :: u)] := by
          unfold tsCore
          rw [e8, e5, e7, e4, d7, d4]
          simp [s8, s5, s7, h4c]
        rcases hsp7 : spTitle u with _ | t
        · have hsp4 : spTitle (':' :: e :: f :: u) = none :=
            spTitle_cons_nospace (by decide) _
          have hno : pat2 (a :: ':' :: c :: d :: ':' :: e :: f :: u) = none := by
            unfold pat2
            rw [hcore]
            simp [hsp7, hsp4]
          rw [hno] at h
          cases h
        · have hsome : pat2 (a :: ':' :: c :: d :: ':' :: e :: f :: u) =
              some ([a, ':', c, d, ':', e, f], t) := by
            unfold pat2
            rw [hcore]
            simp [hsp7]
          rw [hsome] at h
          injection h with h2
          obtain ⟨sp, r2, hu2, hspc⟩ := spTitle_some_head hsp7
          have hbo : brOpens (a :: ':' :: c :: d :: ':' :: e :: f :: u) =
              [a :: ':' :: c :: d :: ':' :: e :: f :: u] :=
            brOpens_digit ha (':' :: c :: d :: ':' :: e :: f :: u)
          have hbc : brCloses u = [u] := by
            rw [hu2]
            exact brCloses_space hspc r2
          rw [← h2]
          unfold pat1
          rw [hbo]
          simp [hcore, hbc, hsp7]
      · by_cases s4 : ts4 (l.take 4) = true
        · obtain ⟨a, c, d, hs, ha, hc0, hd0⟩ := ts4_shape s4
          have hl : a :: ':' :: c :: d :: l.drop 4 = l := by
            have h0 := List.take_append_drop 4 l
            rw [hs] at h0
            exact h0
          obtain ⟨u, hu⟩ : ∃ u, l.drop 4 = u := ⟨_, rfl⟩
          rw [hu] at hl
          subst hl
          have e8 : (a :: ':' :: c :: d :: u).take 8 =
            a :: ':' :: c :: d :: u.take 4 := rfl
          have e5 : (a :: ':' :: c :: d :: u).take 5 =
            a :: ':' :: c :: d :: u.take 1 := rfl
          have e7 : (a :: ':' :: c :: d :: u).take 7 =
            a :: ':' :: c :: d :: u.take 3 := rfl
          have e4 : (a :: ':' :: c :: d :: u).take 4 = [a, ':', c, d] := rfl
          have d4 : (a :: ':' :: c :: d :: u).drop 4 = u := rfl
          rw [e8] at s8
          rw [e5] at s5
          rw [e7] at s7
          rw [e4] at s4
          have hcore : tsCore (a :: ':' :: c :: d :: u) = [([a, ':', c, d], u)] := by
            unfold tsCore
            rw [e8, e5, e7, e4, d4]
            simp [s8, s5, s7, s4]
          rcases hsp4 : spTitle u with _ | t
          · have hno : pat2 (a :: ':' :: c :: d :: u) = none := by
              unfold pat2
              rw [hcore]
              simp [hsp4]
            rw [hno] at h
            cases h
          · have hsome : pat2 (a :: ':' :: c :: d :: u) =
                some ([a, ':', c, d], t) := by
              unfold pat2
              rw [hcore]
              simp [hsp4]
            rw [hsome] at h
            injection h with h2
            obtain ⟨sp, r2, hu2, hspc⟩ := spTitle_some_head hsp4
            have hbo : brOpens (a :: ':' :: c :: d :: u) = [a :: ':' :: c :: d :: u] :=
              brOpens_digit ha (':' :: c :: d :: u)
            have hbc : brCloses u = [u] := by
              rw [hu2]
              exact brCloses_space hspc r2
            rw [← h2]
            unfold pat1
            rw [hbo]
            simp [hcore, hbc, hsp4]
        · have hno : pat2 l = none := by
            unfold pat2 tsCore
            simp [s8, s5, s7, s4]
          rw [hno] at h
          cases h

end YT2CUE


namespace YT2CUE

/-- C7: shape (b) is logically subsumed by shape (a): whenever the
bare-prefix strict pattern matches, the bracketed-or-bare-prefix pattern
matches with the same captured groups, and consequently the extractor
with shape (b) removed computes the same result on every line. -/
theorem C7_shape_b_subsumed :
    (∀ (l : List Char) (g : List Char × List Char), pat2 l = some g → pat1 l = some g) ∧
    (∀ line : List Char, parse_timestamp_line line = parse_timestamp_line_noB line) := by
  refine ⟨fun l g h => pat2_imp_pat1 h, fun line => ?_⟩
  have hm : ∀ s : List Char, matchPatterns s = matchPatternsNoB s := by
    intro s
    unfold matchPatterns matchPatternsNoB
    rcases h1 : pat1 s with _ | g1
    · rcases h2 : pat2 s with _ | g2
      · rfl
      · have h3 := pat2_imp_pat1 h2
        rw [h1] at h3
        cases h3
    · rfl
  simp only [parse_timestamp_line, parse_timestamp_line_noB, hm]

/-- C7 witness: shape (b) matches the bare-prefix line and shape (a)
yields the same pair there. -/
theorem C7_shape_b_subsumed_witness :
    pat1 (("0:00 Intro").toList) = some (("0:00").toList, ("Intro").toList) :=
  C7_shape_b_subsumed.1 (("0:00 Intro").toList)
    ((("0:00").toList, ("Intro").toList)) (by decide)

/-- C9: the line extractor is pure and deterministic: the result of the
method depends only on the line text (it is identical across any two
object states, hence across repeated invocations in any order), and an
invocation leaves the object state unchanged. -/
theorem C9_extractor_pure_deterministic :
    ∀ (st1 st2 : GenState) (line : List Char),
      (parse_timestamp_line_method st1 line).2 = (parse_timestamp_line_method st2 line).2 ∧
      (parse_timestamp_line_method st1 line).1 = st1 :=
  fun _ _ _ => ⟨rfl, rfl⟩

/-- C6 counterexample: on this suffix-form line the title group contains
a colon, and the extractor returns the title text as the timestamp and
the trailing timestamp token as the title — the returned timestamp is
not the trailing timestamp token. -/
theorem C6_counterexample :
    pat1 (("Foo: bar (4:30)").toList) = none ∧
    pat2 (("Foo: bar (4:30)").toList) = none ∧
    pat3 (("Foo: bar (4:30)").toList) =
      some (("Foo: bar").toList, ("4:30").toList) ∧
    parse_timestamp_line (("Foo: bar (4:30)").toList) =
      some ⟨("Foo: bar").toList, ("4:30").toList⟩ :=
  ⟨by decide, by decide, by decide, by decide⟩

/-- C6 amended: for every line on which the pattern chain matches with
raw captured groups, the extractor inspects the FIRST captured group for
a colon: if it contains one, that group (trimmed) is returned as the
timestamp and the second group as the title, and only otherwise is the
second group returned as the timestamp; so in a suffix-form match the
trailing token is the returned timestamp exactly when the title text is
colon-free. -/
theorem C6_amended_colon_dispatch :
    ∀ (line g0 g1 : List Char), trimSpace line ≠ [] →
      matchPatterns (stripOrdinal (trimSpace line)) = some (g0, g1) →
      (g0.contains ':' = true →
        parse_timestamp_line line = some ⟨trimSpace g0, trimSpace g1⟩) ∧
      (g0.contains ':' = false →
        parse_timestamp_line line = some ⟨trimSpace g1, trimSpace g0⟩) := by
  intro line g0 g1 h0 hmz
  constructor
  · intro hc
    have hc2 : ':' ∈ g0 := by simpa using hc
    simp [parse_timestamp_line, h0, hmz, mkRes, hc2]
  · intro hc
    have hc2 : ':' ∉ g0 := by simpa using hc
    simp [parse_timestamp_line, h0, hmz, mkRes, hc2]

/-- C6 amended witness: the colon-free suffix-form line returns the
trailing token as timestamp. -/
theorem C6_amended_colon_dispatch_witness :
    parse_timestamp_line (("Intro (0:00)").toList) =
      some ⟨trimSpace (("0:00").toList), trimSpace (("Intro").toList)⟩ :=
  (C6_amended_colon_dispatch (("Intro (0:00)").toList) (("Intro").toList)
    (("0:00").toList) (by decide) (by decide)).2 (by decide)

end YT2CUE


namespace YT2CUE

/-- A conversion-failure diagnostic is recorded with the line number of
the failing line. -/
theorem processGo_diag_mem :
    ∀ (ls : List (List Char)) (n i : Nat) (hi : i < ls.length)
      (r : ExtractionResult) (e : List Char),
      parse_timestamp_line (ls.get ⟨i, hi⟩) = some r →
      parse_timestamp r.timestamp = Except.error e →
      (n + i, e) ∈ (processGo n ls).2 := by
  intro ls
  induction ls with
  | nil =>
    intro n i hi
    exact absurd hi (Nat.not_lt_zero i)
  | cons line rest ih =>
    intro n i hi r e h1 h2
    cases i with
    | zero =>
      simp only [List.get] at h1
      simp [processGo, h1, h2]
    | succ j =>
      simp only [List.get] at h1
      have hj : j < rest.length := Nat.succ_lt_succ_iff.mp hi
      have hmem := ih (n + 1) j hj r e h1 h2
      have harith : n + 1 + j = n + (j + 1) := by omega
      rw [harith] at hmem
      unfold processGo
      rcases hline : parse_timestamp_line line with _ | r0
      · simpa [hline] using hmem
      · rcases hp : parse_timestamp r0.timestamp with e0 | tc
        · simp only [hline, hp]
          exact List.mem_cons_of_mem _ hmem
        · simpa [hline, hp] using hmem

/-- Every recorded diagnostic came from some line whose extraction
succeeded, at the line number it carries. -/
theorem processGo_diag_src :
    ∀ (ls : List (List Char)) (n : Nat) (d : Nat × List Char),
      d ∈ (processGo n ls).2 →
      ∃ j, ∃ hj : j < ls.length, d.1 = n + j ∧
        parse_timestamp_line (ls.get ⟨j, hj⟩) ≠ none := by
  intro ls
  induction ls with
  | nil =>
    intro n d hd
    simp [processGo] at hd
  | cons line rest ih =>
    intro n d hd
    unfold processGo at hd
    rcases hline : parse_timestamp_line line with _ | r0
    · simp only [hline] at hd
      rcases ih (n + 1) d hd with ⟨j, hj, he, hne⟩
      exact ⟨j + 1, Nat.succ_lt_succ hj, by omega, hne⟩
    · rcases hp : parse_timestamp r0.timestamp with e0 | tc
      · simp only [hline, hp, List.mem_cons] at hd
        rcases hd with hd | hd
        · refine ⟨0, Nat.succ_pos _, ?_, ?_⟩
          · rw [hd]
            simp
          · simp [hline]
        · rcases ih (n + 1) d hd with ⟨j, hj, he, hne⟩
          exact ⟨j + 1, Nat.succ_lt_succ hj, by omega, hne⟩
      · simp only [hline, hp] at hd
        rcases ih (n + 1) d hd with ⟨j, hj, he, hne⟩
        exact ⟨j + 1, Nat.succ_lt_succ hj, by omega, hne⟩

/-- C3 counterexample: the claim that every skipped line yields a
diagnostic carrying its 1-based line number and the original line text
is false: the single line below matches no shape, is skipped, and the
diagnostics list is empty. -/
theorem C3_counterexample :
    ¬ (∀ (lines : List (List Char)) (i : Nat) (hi : i < lines.length),
        (parse_timestamp_line (lines.get ⟨i, hi⟩) = none ∨
         ∃ r e, parse_timestamp_line (lines.get ⟨i, hi⟩) = some r ∧
           parse_timestamp r.timestamp = Except.error e) →
        ∃ d ∈ (processLines lines).2, d.1 = i + 1 ∧
          (lines.get ⟨i, hi⟩) <:+: d.2) := by
  intro hcl
  have h1 := hcl [("hello").toList] 0 (by decide) (Or.inl (by decide))
  rcases h1 with ⟨d, hd, _⟩
  have h2 : (processLines [("hello").toList]).2 = [] := by decide
  rw [h2] at hd
  cases hd

/-- C3 amended: only lines whose extracted timestamp token fails
conversion produce a diagnostic; it carries the 1-based line number and
the conversion error message (which quotes the offending token text, not
the original line).  Lines matching no structural shape are skipped
silently: no diagnostic carries their line number. -/
theorem C3_amended_diagnostics :
    (∀ (lines : List (List Char)) (i : Nat) (hi : i < lines.length)
       (r : ExtractionResult) (e : List Char),
       parse_timestamp_line (lines.get ⟨i, hi⟩) = some r →
       parse_timestamp r.timestamp = Except.error e →
       (i + 1, e) ∈ (processLines lines).2) ∧
    (∀ (lines : List (List Char)) (i : Nat) (hi : i < lines.length),
       parse_timestamp_line (lines.get ⟨i, hi⟩) = none →
       ∀ d ∈ (processLines lines).2, d.1 ≠ i + 1) := by
  constructor
  · intro lines i hi r e h1 h2
    have hmem := processGo_diag_mem lines 1 i hi r e h1 h2
    rw [Nat.add_comm] at hmem
    exact hmem
  · intro lines i hi h1 d hd he
    rcases processGo_diag_src lines 1 d hd with ⟨j, hj, hdj, hne⟩
    have hji : j = i := by omega
    subst hji
    exact hne h1

/-- C3 amended witness: the first line extracts a colon-bearing title as
its timestamp, fails conversion and yields the diagnostic for line 1;
the second line matches no shape and no diagnostic carries line
number 2. -/
theorem C3_amended_diagnostics_witness :
    (1, intErrMsg (("Foo").toList)) ∈
      (processLines [("Foo: bar (4:30)").toList, ("hello").toList]).2 ∧
    (∀ d ∈ (processLines [("Foo: bar (4:30)").toList, ("hello").toList]).2,
      d.1 ≠ 2) := by
  constructor
  · exact C3_amended_diagnostics.1 [("Foo: bar (4:30)").toList, ("hello").toList] 0
      (by decide) ⟨("Foo: bar").toList, ("4:30").toList⟩ (intErrMsg (("Foo").toList))
      (by decide) (by decide)
  · exact C3_amended_diagnostics.2 [("Foo: bar (4:30)").toList, ("hello").toList] 1
      (by decide) (by decide)

end YT2CUE


namespace YT2CUE

/-- C4: evaluation at the failing input.  On a readable file whose single
line yields no track, `read_timestamps_file` does not surface the
no-tracks `ValueError` to the caller: the catch-all handler re-raises it
as a bare generic `Exception` whose message carries the reading-error
prefix used for all unexpected errors, contradicting the function's own
docstring (raises `ValueError` if no valid timestamps are found) and the
required distinctness from I/O errors. -/
theorem C4_notracks_wrapped_generic :
    read_timestamps_file initState (("f.txt").toList)
        (FileOutcome.ok [("hello").toList]) =
      (initState, Except.error (PyExc.generic
        (("Error reading file: No valid timestamps found in file").toList))) := by
  decide

/-- C10: the tracks field is assigned only on success: every error exit
(missing file, unreadable file, zero extracted tracks) returns the state
unchanged, and on success the tracks field holds exactly the non-empty
list of tracks extracted from the whole input, whose length is the
returned count. -/
theorem C10_tracks_assigned_atomically :
    ∀ (st : GenState) (fp : List Char) (fo : FileOutcome),
      (∀ e, (read_timestamps_file st fp fo).2 = Except.error e →
        (read_timestamps_file st fp fo).1 = st) ∧
      (∀ lines n, fo = FileOutcome.ok lines →
        (read_timestamps_file st fp fo).2 = Except.ok n →
        (read_timestamps_file st fp fo).1.tracks = (processLines lines).1 ∧
        (processLines lines).1 ≠ [] ∧ n = (processLines lines).1.length) := by
  intro st fp fo
  constructor
  · intro e he
    cases fo with
    | missing m => rfl
    | unreadable m => rfl
    | ok lines =>
      by_cases h0 : (processLines lines).1 = []
      · simp [read_timestamps_file, readBody, h0]
      · simp [read_timestamps_file, readBody, h0] at he
  · intro lines n hfo hok
    subst hfo
    by_cases h0 : (processLines lines).1 = []
    · simp [read_timestamps_file, readBody, h0] at hok
    · simp [read_timestamps_file, readBody, h0, setTracks] at hok ⊢
      simp [setTracks, hok, h0]

/-- C10 witness: a missing file leaves a previously loaded track list in
place. -/
theorem C10_tracks_assigned_atomically_witness :
    (read_timestamps_file (setTracks initState [⟨("old").toList, 1, 2, 0⟩])
        (("f.txt").toList) (FileOutcome.missing [])).1 =
      setTracks initState [⟨("old").toList, 1, 2, 0⟩] :=
  (C10_tracks_assigned_atomically (setTracks initState [⟨("old").toList, 1, 2, 0⟩])
      (("f.txt").toList) (FileOutcome.missing [])).1
    (PyExc.fileNotFound (("File not found: f.txt").toList)) (by decide)

end YT2CUE


namespace YT2CUE

/-- Every member line of a line list is an infix of the newline join. -/
theorem joinNL_infix {x : List Char} :
    ∀ {ls : List (List Char)}, x ∈ ls → x <:+: joinNL ls := by
  intro ls
  induction ls with
  | nil =>
    intro h
    cases h
  | cons y ys ih =>
    intro h
    rcases List.mem_cons.mp h with h1 | h1
    · subst h1
      cases ys with
      | nil => exact ⟨[], [], by simp [joinNL]⟩
      | cons z zs => exact ⟨[], '\n' :: joinNL (z :: zs), by simp [joinNL]⟩
    · have hx := ih h1
      cases ys with
      | nil => cases h1
      | cons z zs =>
        have hsuf : joinNL (z :: zs) <:+ joinNL (y :: z :: zs) := by
          refine ⟨y ++ ['\n'], ?_⟩
          simp [joinNL]
        exact hx.trans (infix_of_suff hsuf)

/-- The INDEX line of every track occurs among the rendered track
lines. -/
theorem tracksLines_index_mem :
    ∀ (ts : List Track) (artist : List Char) (n : Nat) (t : Track), t ∈ ts →
      (("    INDEX 01 ").toList ++ fmt02 t.minutes ++ ':' :: fmt02 t.seconds ++
        ':' :: fmt02 t.frames) ∈ tracksLines artist n ts := by
  intro ts
  induction ts with
  | nil =>
    intro _ _ t h
    cases h
  | cons t0 rest ih =>
    intro artist n t h
    rcases List.mem_cons.mp h with h1 | h1
    · subst h1
      refine List.mem_append_left _ ?_
      simp [trackBlock]
    · exact List.mem_append_right _ (ih artist (n + 1) t h1)

/-- The 4-line block of the track at 0-based position `i` starts at list
position `4*i`, carrying track number `n + i`. -/
theorem tracksLines_track_number :
    ∀ (ts : List Track) (artist : List Char) (n i : Nat), i < ts.length →
      (tracksLines artist n ts)[4 * i]? =
        some (("  TRACK ").toList ++ fmt02 (Int.ofNat (n + i)) ++ (" AUDIO").toList) := by
  intro ts
  induction ts with
  | nil =>
    intro _ _ i hi
    exact absurd hi (Nat.not_lt_zero i)
  | cons t0 rest ih =>
    intro artist n i hi
    cases i with
    | zero =>
      simp [tracksLines, trackBlock]
    | succ j =>
      have hj : j < rest.length := Nat.succ_lt_succ_iff.mp hi
      have hlen : (trackBlock artist n t0).length = 4 := rfl
      have harith : 4 * (j + 1) = (trackBlock artist n t0).length + 4 * j := by
        rw [hlen]
        ring
      rw [tracksLines, harith,
        List.getElem?_append_right (Nat.le_add_right _ _)]
      have hsub : (trackBlock artist n t0).length + 4 * j -
          (trackBlock artist n t0).length = 4 * j := by omega
      rw [hsub, ih artist (n + 1) j hj]
      have : n + 1 + j = n + (j + 1) := by omega
      rw [this]

/-- C8: CUE rendering.  For every state, each track with frames 0
contributes the literal INDEX substring with two-digit zero-padded
minutes and seconds and frames 00 to the rendered text; the track blocks
appear in extraction order, the block of the track at position `i`
starting with the TRACK line numbered `i + 1` (two-digit zero-padded),
which also occurs in the rendered text. -/
theorem C8_cue_rendering :
    ∀ (nowYear : List Char) (st : GenState),
      (∀ t ∈ st.tracks, t.frames = 0 →
        (("INDEX 01 ").toList ++ fmt02 t.minutes ++ ':' :: fmt02 t.seconds ++
          (":00").toList) <:+: generate_cue_content nowYear st) ∧
      (∀ i, i < st.tracks.length →
        (tracksLines st.artist 1 st.tracks)[4 * i]? =
          some (("  TRACK ").toList ++ fmt02 (Int.ofNat (i + 1)) ++ (" AUDIO").toList)) ∧
      (∀ i, i < st.tracks.length →
        (("  TRACK ").toList ++ fmt02 (Int.ofNat (i + 1)) ++ (" AUDIO").toList) <:+:
          generate_cue_content nowYear st) := by
  intro nowYear st
  have hnum : ∀ i, i < st.tracks.length →
      (tracksLines st.artist 1 st.tracks)[4 * i]? =
        some (("  TRACK ").toList ++ fmt02 (Int.ofNat (i + 1)) ++ (" AUDIO").toList) := by
    intro i hi
    rw [tracksLines_track_number st.tracks st.artist 1 i hi]
    have : 1 + i = i + 1 := by omega
    rw [this]
  refine ⟨?_, hnum, ?_⟩
  · intro t ht hfr
    have hmem := tracksLines_index_mem st.tracks st.artist 1 t ht
    have hmem2 : (("    INDEX 01 ").toList ++ fmt02 t.minutes ++ ':' :: fmt02 t.seconds ++
        ':' :: fmt02 t.frames) ∈ headerLines nowYear st ++ tracksLines st.artist 1 st.tracks :=
      List.mem_append_right _ hmem
    have hline := joinNL_infix hmem2
    have hsuf : (("INDEX 01 ").toList ++ fmt02 t.minutes ++ ':' :: fmt02 t.seconds ++
        (":00").toList) <:+
        (("    INDEX 01 ").toList ++ fmt02 t.minutes ++ ':' :: fmt02 t.seconds ++
          ':' :: fmt02 t.frames) := by
      rw [hfr]
      exact ⟨("    ").toList, rfl⟩
    exact (infix_of_suff hsuf).trans hline
  · intro i hi
    have hget := hnum i hi
    have hmem : (("  TRACK ").toList ++ fmt02 (Int.ofNat (i + 1)) ++ (" AUDIO").toList) ∈
        tracksLines st.artist 1 st.tracks := List.getElem?_mem hget
    exact joinNL_infix (List.mem_append_right _ hmem)

/-- C8 witness: the single-track state renders INDEX 01 00:00:00 and a
TRACK 01 AUDIO block. -/
theorem C8_cue_rendering_witness :
    ((("INDEX 01 ").toList ++ fmt02 0 ++ ':' :: fmt02 0 ++ (":00").toList) <:+:
      generate_cue_content (("2025").toList)
        (setTracks initState [⟨("T").toList, 0, 0, 0⟩])) ∧
    (tracksLines (setTracks initState [⟨("T").toList, 0, 0, 0⟩]).artist 1
        (setTracks initState [⟨("T").toList, 0, 0, 0⟩]).tracks)[4 * 0]? =
      some (("  TRACK ").toList ++ fmt02 (Int.ofNat (0 + 1)) ++ (" AUDIO").toList) := by
  constructor
  · exact (C8_cue_rendering (("2025").toList)
      (setTracks initState [⟨("T").toList, 0, 0, 0⟩])).1 ⟨("T").toList, 0, 0, 0⟩
      (by simp [setTracks, initState]) rfl
  · exact (C8_cue_rendering (("2025").toList)
      (setTracks initState [⟨("T").toList, 0, 0, 0⟩])).2.1 0
      (by simp [setTracks, initState])

end YT2CUE


namespace YT2CUE

/-- C5 witness: a well-formed token satisfies the characterization. -/
theorem C5_parse_failure_characterization_witness :
    (parse_timestamp (("5:06").toList)).isOk = true :=
  (C5_parse_failure_characterization.1 (("5:06").toList)).mpr (by decide)

end YT2CUE
